import Mathlib

set_option maxRecDepth 8000

/-!  Verification of the URL rewriter in src/url.ts of wezm/wizards-bot.

The rewriter scans chat text with a global regex whose pattern is: a
literal lowercase scheme, http:// or https:// (the s tried first), then
one or more host characters (ASCII word characters, dot, hyphen), then
one or more groups of a dot followed by host characters, then one or
more trailing characters drawn from the larger URL character class
(word characters plus hyphen dot underscore tilde colon slash question
hash brackets at bang dollar ampersand apostrophe parens star plus
comma semicolon equals).  Every match is passed through
maybeReplaceUrl, which parses the match with the WHATWG URL
constructor, rewrites the host when the host string ends with
twitter.com (to nitter.net) or with medium.com (to scribe.rip), and
re-serializes, appending a source annotation with the original match.

We embed the scanner, the fragment of WHATWG URL parsing and
serialization that scanner matches exercise (authority splitting at the
last at-sign, userinfo splitting and percent-encoding, domain
lowercasing, port parsing with failure on non-digits and elision of
default ports, dot-segment removal in paths, percent-encoding of the
apostrophe in queries of special-scheme URLs), and the replacement
pass.  Option models a thrown TypeError: none means the URL constructor
threw and the exception propagates out of substituteUrls.
Simplifications of the builtin that no theorem below depends on:
IPv4/IPv6 host forms are treated as ordinary domains, and characters
the scanner can never produce (spaces, percent signs, backslashes,
non-ASCII) are not specially encoded. -/

namespace WizardsBot

/-- The regex word character class: ASCII letters, digits and underscore
(the regex has no unicode flag, so this class is ASCII only). -/
def isWordChar (c : Char) : Bool := c.isAlphanum || c == '_'

/-- The host character class of URL_REGEX: word characters, dot, hyphen. -/
def isW (c : Char) : Bool := isWordChar c || c == '.' || c == '-'

/-- The trailing character class of URL_REGEX. -/
def isC4 (c : Char) : Bool :=
  isW c || [':', '/', '?', '#', '[', ']', '@', '!', '$', '&', Char.ofNat 39,
    '(', ')', '*', '+', ',', ';', '=', '~'].contains c

/-- Splits a literal lowercase scheme prefix, trying https before http
exactly as the greedy optional s of the regex does. -/
def splitScheme (l : List Char) : Option (List Char × List Char) :=
  match l with
  | 'h' :: 't' :: 't' :: 'p' :: 's' :: ':' :: '/' :: '/' :: rest =>
    some (['h', 't', 't', 'p', 's', ':', '/', '/'], rest)
  | 'h' :: 't' :: 't' :: 'p' :: ':' :: '/' :: '/' :: rest =>
    some (['h', 't', 't', 'p', ':', '/', '/'], rest)
  | _ => none

/-- Existence of a successful regex-body decomposition after the scheme:
s is the maximal host-class run, and the body matches exactly when some
dot sits at an index of s that is at least one, with a host-class
character after it inside s, and with at least one further trailing
character available (the regex requires the final class to consume at
least one character).  Backtracking then always extends the final
greedy class to the end of the maximal trailing-class run. -/
def bodyOK (s r : List Char) : Bool :=
  (List.range s.length).any fun i =>
    decide (1 ≤ i) && decide (i + 1 < s.length) &&
      (s.getD i ' ' == '.') && decide (i + 3 ≤ r.length)

/-- One attempt of URL_REGEX anchored at the head of l: on success
returns the matched substring and the remainder of the text. -/
def tryMatchAt (l : List Char) : Option (List Char × List Char) :=
  match splitScheme l with
  | none => none
  | some (sch, rest) =>
    if bodyOK (rest.takeWhile isW) (rest.takeWhile isC4) then
      some (sch ++ rest.takeWhile isC4, rest.dropWhile isC4)
    else none

/-- The parsed URL record produced by the WHATWG URL constructor, with
userinfo already percent-encoded and the query already encoded; a port
equal to the scheme default is stored as none exactly as the builtin
does. -/
structure JSURL where
  scheme : List Char
  username : List Char
  password : List Char
  hostname : List Char
  port : Option Nat
  pathname : List Char
  search : Option (List Char)
  fragment : Option (List Char)
deriving DecidableEq

/-- Splits a list at the first occurrence of sep, returning the parts
before and after it, or none when sep does not occur. -/
def breakAtFirst (sep : Char) : List Char → Option (List Char × List Char)
  | [] => none
  | c :: rest =>
    if c == sep then some ([], rest)
    else (breakAtFirst sep rest).map fun p => (c :: p.1, p.2)

/-- Decimal value of a digit run. -/
def digitsToNat (l : List Char) : Nat := l.foldl (fun n c => n * 10 + (c.toNat - 48)) 0

/-- Default port of the two schemes the scanner can produce. -/
def defaultPort (sch : List Char) : Nat := if sch == ("https://").data then 443 else 80

/-- WHATWG host-and-port parsing for the host-port part of an authority:
split at the first colon, reject empty hosts and hosts containing
square brackets, lowercase the domain, parse the port as decimal
digits, failing on any non-digit or on values above 65535, and elide
the scheme default port. -/
def parseHostPort (sch hostport : List Char) : Option (List Char × Option Nat) :=
  let hp := match breakAtFirst ':' hostport with
    | none => (hostport, none)
    | some p => (p.1, some p.2)
  if hp.1.isEmpty || hp.1.contains '[' || hp.1.contains ']' then none
  else
    let host := hp.1.map Char.toLower
    match hp.2 with
    | none => some (host, none)
    | some ds =>
      if ds.isEmpty then some (host, none)
      else if ds.all Char.isDigit then
        let n := digitsToNat ds
        if n > 65535 then none
        else if n == defaultPort sch then some (host, none)
        else some (host, some n)
      else none

/-- Splits a character list at every slash. -/
def splitOnSlash : List Char → List (List Char)
  | [] => [[]]
  | '/' :: rest => [] :: splitOnSlash rest
  | c :: rest =>
    match splitOnSlash rest with
    | [] => [[c]]
    | s :: ss => (c :: s) :: ss

/-- WHATWG dot-segment removal over the segments of a path: a
double-dot segment pops the previous segment, a single-dot segment is
skipped, and when either ends the path an empty segment is appended so
the serialized path keeps its trailing slash. -/
def procSegs : List (List Char) → List (List Char) → List (List Char)
  | acc, [] => acc
  | acc, [s] =>
    if s == ['.', '.'] then acc.dropLast ++ [[]]
    else if s == ['.'] then acc ++ [[]]
    else acc ++ [s]
  | acc, s :: rest =>
    if s == ['.', '.'] then procSegs acc.dropLast rest
    else if s == ['.'] then procSegs acc rest
    else procSegs (acc ++ [s]) rest

/-- Percent-encoding of the userinfo percent-encode set restricted to
characters the scanner can produce. -/
def userinfoEncodeChar (c : Char) : List Char :=
  if c == ':' then ['%', '3', 'A']
  else if c == ';' then ['%', '3', 'B']
  else if c == '=' then ['%', '3', 'D']
  else if c == '@' then ['%', '4', '0']
  else if c == '[' then ['%', '5', 'B']
  else if c == ']' then ['%', '5', 'D']
  else [c]

/-- Percent-encoding of the special-query percent-encode set restricted
to characters the scanner can produce: the apostrophe becomes %27. -/
def queryEncodeChar (c : Char) : List Char :=
  if c == Char.ofNat 39 then ['%', '2', '7'] else [c]

/-- The WHATWG URL constructor (new URL) on an absolute http or https
URL string, as exercised by scanner matches: returns none exactly when
the builtin would throw a TypeError. -/
def jsParseUrl (u : String) : Option JSURL :=
  match splitScheme u.data with
  | none => none
  | some (sch, rest) =>
    let auth := rest.takeWhile fun c => !(c == '/' || c == '?' || c == '#')
    let tail0 := rest.dropWhile fun c => !(c == '/' || c == '?' || c == '#')
    let ui := match breakAtFirst '@' auth.reverse with
      | none => ([], auth)
      | some p => (p.2.reverse, p.1.reverse)
    let userpass := match breakAtFirst ':' ui.1 with
      | none => (ui.1, ([] : List Char))
      | some p => (p.1, p.2)
    match parseHostPort sch ui.2 with
    | none => none
    | some hp =>
      let pathPart := tail0.takeWhile fun c => !(c == '?' || c == '#')
      let tail1 := tail0.dropWhile fun c => !(c == '?' || c == '#')
      let pathname :=
        if pathPart.isEmpty then ['/']
        else '/' :: List.intercalate ['/'] (procSegs [] (splitOnSlash (pathPart.drop 1)))
      let sf : Option (List Char) × Option (List Char) :=
        match tail1 with
        | '?' :: qrest =>
          (some ((qrest.takeWhile fun c => !(c == '#')).flatMap queryEncodeChar),
           match qrest.dropWhile fun c => !(c == '#') with
           | '#' :: f => some f
           | _ => none)
        | '#' :: f => (none, some f)
        | _ => (none, none)
      some ⟨sch, userpass.1.flatMap userinfoEncodeChar, userpass.2.flatMap userinfoEncodeChar,
            hp.1, hp.2, pathname, sf.1, sf.2⟩

/-- Serialization of the port: a colon and the decimal digits, or
nothing when the port is elided. -/
def serPort : Option Nat → List Char
  | none => []
  | some p => ':' :: (Nat.repr p).data

/-- Serialization of the userinfo block including the trailing at-sign,
present exactly when the username or password is nonempty. -/
def serUserinfo (url : JSURL) : List Char :=
  if url.username.isEmpty && url.password.isEmpty then []
  else url.username ++ (if url.password.isEmpty then [] else ':' :: url.password) ++ ['@']

/-- The host property of the URL object: hostname plus the serialized
port.  This is the string the source tests with endsWith. -/
def jsHost (url : JSURL) : List Char := url.hostname ++ serPort url.port

/-- The host property as a string, for readable statements. -/
def jsHostString (url : JSURL) : String := String.mk (jsHost url)

/-- Serialization of the query including its question mark. -/
def serSearch : Option (List Char) → List Char
  | none => []
  | some q => '?' :: q

/-- Serialization of the fragment including its hash. -/
def serFrag : Option (List Char) → List Char
  | none => []
  | some f => '#' :: f

/-- The toString of the URL object (its href). -/
def jsToString (url : JSURL) : String :=
  String.mk (url.scheme ++ serUserinfo url ++ jsHost url ++ url.pathname ++
    serSearch url.search ++ serFrag url.fragment)

/-- The endsWith test the source applies to the host property. -/
def hostEndsWith (url : JSURL) (s : String) : Bool := s.data.isSuffixOf (jsHost url)

/-- The host setter applied to a value without a colon, as at both call
sites of the source: the hostname is replaced and the port kept. -/
def jsSetHost (url : JSURL) (v : String) : JSURL := { url with hostname := v.data }

/-- maybeReplaceUrl of src/url.ts: parse the match with new URL (none
models the constructor throwing), rewrite hosts ending in twitter.com
to nitter.net and hosts ending in medium.com to scribe.rip, appending
the source annotation, and return every other match untouched. -/
def maybeReplaceUrl (url0 : String) : Option String :=
  match jsParseUrl url0 with
  | none => none
  | some url =>
    if hostEndsWith url ("twitter.com") then
      some (jsToString (jsSetHost url ("nitter.net")) ++ " ([source](" ++ url0 ++ "))")
    else if hostEndsWith url ("medium.com") then
      some (jsToString (jsSetHost url ("scribe.rip")) ++ " ([source](" ++ url0 ++ "))")
    else
      some url0

/-- The global replace pass of substituteUrls: scan left to right, at
each position emit the rewrite of the match starting there and continue
after it, or pass the character through; none propagates a thrown
TypeError.  The fuel argument only bounds recursion and never runs out
when it starts at the length of the text. -/
def scanAux : Nat → List Char → Option (List Char)
  | 0, _ => some []
  | _ + 1, [] => some []
  | fuel + 1, c :: rest =>
    match tryMatchAt (c :: rest) with
    | some (m, rest2) =>
      match maybeReplaceUrl (String.mk m), scanAux fuel rest2 with
      | some r, some t => some (r.data ++ t)
      | _, _ => none
    | none =>
      match scanAux fuel rest with
      | some t => some (c :: t)
      | none => none

/-- substituteUrls of src/url.ts: text.replace(URL_REGEX, maybeReplaceUrl). -/
def substituteUrls (text : String) : Option String :=
  (scanAux text.data.length text.data).map String.mk

/-- A piece of the scanned text: a character outside every match, or one
matched span. -/
inductive Piece where
  | plain : Char → Piece
  | url : List Char → Piece
deriving DecidableEq

/-- The span decomposition the scanner induces on a text. -/
def piecesAux : Nat → List Char → List Piece
  | 0, _ => []
  | _ + 1, [] => []
  | fuel + 1, c :: rest =>
    match tryMatchAt (c :: rest) with
    | some (m, rest2) => Piece.url m :: piecesAux fuel rest2
    | none => Piece.plain c :: piecesAux fuel rest

/-- Reassembling the decomposition reproduces the original characters. -/
def flattenPieces : List Piece → List Char
  | [] => []
  | Piece.plain c :: ps => c :: flattenPieces ps
  | Piece.url m :: ps => m ++ flattenPieces ps

/-- Rendering the decomposition: characters outside matches verbatim,
every matched span independently through maybeReplaceUrl. -/
def renderPieces : List Piece → Option (List Char)
  | [] => some []
  | Piece.plain c :: ps =>
    match renderPieces ps with
    | some t => some (c :: t)
    | none => none
  | Piece.url m :: ps =>
    match maybeReplaceUrl (String.mk m), renderPieces ps with
    | some r, some t => some (r.data ++ t)
    | _, _ => none

/-- Whether the scanner matches anywhere in the text. -/
def hasUrlCandidate : List Char → Bool
  | [] => false
  | c :: rest => (tryMatchAt (c :: rest)).isSome || hasUrlCandidate rest


/-- A successful scheme split decomposes the text and identifies the
scheme as one of the two literal alternatives. -/
theorem splitScheme_eq (l sch rest : List Char) (h : splitScheme l = some (sch, rest)) :
    l = sch ++ rest ∧ (sch = ("https://").data ∨ sch = ("http://").data) := by
  unfold splitScheme at h
  split at h
  · simp only [Option.some.injEq, Prod.mk.injEq] at h
    obtain ⟨rfl, rfl⟩ := h
    exact ⟨rfl, Or.inl rfl⟩
  · simp only [Option.some.injEq, Prod.mk.injEq] at h
    obtain ⟨rfl, rfl⟩ := h
    exact ⟨rfl, Or.inr rfl⟩
  · cases h

/-- A successful match decomposes the text into the match and the rest,
and the match is nonempty. -/
theorem tryMatchAt_eqs (l m r : List Char) (h : tryMatchAt l = some (m, r)) :
    m ++ r = l ∧ m ≠ [] := by
  unfold tryMatchAt at h
  split at h
  · cases h
  case _ sch rest hs =>
    split at h
    · simp only [Option.some.injEq, Prod.mk.injEq] at h
      obtain ⟨rfl, rfl⟩ := h
      obtain ⟨hl, hsch⟩ := splitScheme_eq l sch rest hs
      constructor
      · rw [List.append_assoc, List.takeWhile_append_dropWhile, hl]
      · rcases hsch with rfl | rfl <;> simp
    · cases h

/-- The remainder after a match is strictly shorter than the text. -/
theorem tryMatchAt_rest_len (l m r : List Char) (h : tryMatchAt l = some (m, r)) :
    r.length < l.length := by
  obtain ⟨he, hne⟩ := tryMatchAt_eqs l m r h
  have h0 : 0 < m.length := List.length_pos.mpr hne
  have := congrArg List.length he
  rw [List.length_append] at this
  omega

/-- Reassembling the span decomposition gives back the text. -/
theorem flattenPieces_piecesAux (fuel : Nat) :
    ∀ l : List Char, l.length ≤ fuel → flattenPieces (piecesAux fuel l) = l := by
  induction fuel with
  | zero =>
    intro l hl
    have : l = [] := List.length_eq_zero.mp (Nat.le_zero.mp hl)
    subst this
    rfl
  | succ n ih =>
    intro l hl
    cases l with
    | nil => rfl
    | cons c rest =>
      cases hm : tryMatchAt (c :: rest) with
      | none =>
        have hr : rest.length ≤ n := by
          simp only [List.length_cons] at hl
          omega
        simp [piecesAux, hm, flattenPieces, ih rest hr]
      | some p =>
        obtain ⟨m, rest2⟩ := p
        obtain ⟨he, hne⟩ := tryMatchAt_eqs _ _ _ hm
        have h0 : 0 < m.length := List.length_pos.mpr hne
        have hr : rest2.length ≤ n := by
          have hlen := congrArg List.length he
          simp only [List.length_append, List.length_cons] at hlen hl
          omega
        simp [piecesAux, hm, flattenPieces, ih rest2 hr, he]

/-- The replace pass renders exactly the span decomposition. -/
theorem scanAux_eq_render (fuel : Nat) :
    ∀ l : List Char, scanAux fuel l = renderPieces (piecesAux fuel l) := by
  induction fuel with
  | zero => intro l; rfl
  | succ n ih =>
    intro l
    cases l with
    | nil => rfl
    | cons c rest =>
      cases hm : tryMatchAt (c :: rest) with
      | none => simp [scanAux, piecesAux, hm, renderPieces, ih rest]
      | some p =>
        obtain ⟨m, rest2⟩ := p
        simp [scanAux, piecesAux, hm, renderPieces, ih rest2]

/-- Without a scanner match the replace pass is the identity. -/
theorem scanAux_of_noCandidate (fuel : Nat) :
    ∀ l : List Char, l.length ≤ fuel → hasUrlCandidate l = false → scanAux fuel l = some l := by
  induction fuel with
  | zero =>
    intro l hl _
    have : l = [] := List.length_eq_zero.mp (Nat.le_zero.mp hl)
    subst this
    rfl
  | succ n ih =>
    intro l hl hc
    cases l with
    | nil => rfl
    | cons c rest =>
      unfold hasUrlCandidate at hc
      rw [Bool.or_eq_false_iff] at hc
      obtain ⟨h1, h2⟩ := hc
      cases hm : tryMatchAt (c :: rest) with
      | some p => rw [hm] at h1; cases h1
      | none =>
        have hr : rest.length ≤ n := by
          simp only [List.length_cons] at hl
          omega
        simp [scanAux, hm, ih rest hr h2]

/-- maybeReplaceUrl on a string the URL constructor accepts. -/
theorem maybeReplaceUrl_parsed (u : String) (url : JSURL) (hp : jsParseUrl u = some url) :
    maybeReplaceUrl u =
      if hostEndsWith url ("twitter.com") then
        some (jsToString (jsSetHost url ("nitter.net")) ++ " ([source](" ++ u ++ "))")
      else if hostEndsWith url ("medium.com") then
        some (jsToString (jsSetHost url ("scribe.rip")) ++ " ([source](" ++ u ++ "))")
      else some u := by
  unfold maybeReplaceUrl
  rw [hp]


/-- C1, counterexample: the host of https://eviltwitter.com/x is
eviltwitter.com, which neither equals twitter.com nor ends with a dot
followed by twitter.com, yet the rewriter does rewrite it, because the
source checks a plain endsWith with no dot boundary. -/
theorem c1_counterexample :
    (jsParseUrl ("https://eviltwitter.com/x")).map jsHostString = some ("eviltwitter.com") ∧
    (("eviltwitter.com" : String) ≠ ("twitter.com" : String) ∧
      (".twitter.com").data.isSuffixOf ("eviltwitter.com").data = false) ∧
    maybeReplaceUrl ("https://eviltwitter.com/x") =
      some ("https://nitter.net/x ([source](https://eviltwitter.com/x))") :=
  ⟨by decide, ⟨by decide, by decide⟩, by decide⟩

/-- C1 (amended): a candidate the URL constructor accepts is rewritten
if and only if its host property ends with the plain string twitter.com
or with the plain string medium.com; no dot boundary is required, so a
host such as eviltwitter.com is rewritten as well. -/
theorem c1_rewrite_iff (u : String) (url : JSURL) (hp : jsParseUrl u = some url) :
    maybeReplaceUrl u ≠ some u ↔
      (hostEndsWith url ("twitter.com") = true ∨ hostEndsWith url ("medium.com") = true) := by
  have hann : ∀ A : String, A ++ " ([source](" ++ u ++ "))" ≠ u := by
    intro A hA
    have hlen := congrArg String.length hA
    simp only [String.length_append] at hlen
    have e1 : (" ([source](" : String).length = 11 := rfl
    have e2 : ("))" : String).length = 2 := rfl
    rw [e1, e2] at hlen
    omega
  rw [maybeReplaceUrl_parsed u url hp]
  by_cases h1 : hostEndsWith url ("twitter.com") = true
  · simp only [h1, if_true, true_or, iff_true, ne_eq, Option.some.injEq]
    exact hann _
  · by_cases h2 : hostEndsWith url ("medium.com") = true
    · simp only [h1, h2, if_true, if_false, or_true, iff_true, ne_eq, Option.some.injEq,
        Bool.false_eq_true]
      exact hann _
    · simp [h1, h2]

/-- C1 (amended), witness: https://twitter.com/a is rewritten. -/
theorem c1_rewrite_iff_w :
    maybeReplaceUrl ("https://twitter.com/a") ≠ some ("https://twitter.com/a") :=
  (c1_rewrite_iff ("https://twitter.com/a")
      ⟨("https://").data, [], [], ("twitter.com").data, none, ("/a").data, none, none⟩
      (by decide)).mpr (Or.inl (by decide))

/-- C2: the rewriter is not total.  The scanner matches http followed by
a.b with a non-numeric port x, the URL constructor throws on it, and
the exception propagates out of substituteUrls (modelled as none). -/
theorem c2_not_total_throws_on_bad_port :
    substituteUrls ("http://a.b:x") = none ∧
      hasUrlCandidate (("http://a.b:x").data) = true :=
  ⟨by decide, by decide⟩

/-- C3: whenever a mirror rule fires, the emitted replacement is the
rewritten absolute URL followed immediately by the literal annotation
holding the original matched substring character for character. -/
theorem c3_annotation_format (u : String) (url : JSURL) (hp : jsParseUrl u = some url)
    (h : hostEndsWith url ("twitter.com") = true ∨ hostEndsWith url ("medium.com") = true) :
    maybeReplaceUrl u =
      some (jsToString (jsSetHost url
          (if hostEndsWith url ("twitter.com") then "nitter.net" else "scribe.rip")) ++
        " ([source](" ++ u ++ "))") := by
  rw [maybeReplaceUrl_parsed u url hp]
  by_cases h1 : hostEndsWith url ("twitter.com") = true
  · simp [h1]
  · have h2 : hostEndsWith url ("medium.com") = true := by
      rcases h with h | h
      · exact absurd h h1
      · exact h
    simp [h1, h2]

/-- C3, witness: the desktop fixture of the test suite. -/
theorem c3_annotation_format_w :
    maybeReplaceUrl ("https://twitter.com/wezm") =
      some ("https://nitter.net/wezm ([source](https://twitter.com/wezm))") := by
  rw [c3_annotation_format ("https://twitter.com/wezm")
      ⟨("https://").data, [], [], ("twitter.com").data, none, ("/wezm").data, none, none⟩
      (by decide) (Or.inl (by decide))]
  decide

/-- C4, counterexample: the path is not carried through unchanged on a
rewrite: the URL constructor removes dot segments, so the matched path
a slash dot-dot slash b serializes as slash b in the rewritten URL. -/
theorem c4_counterexample :
    substituteUrls ("https://twitter.com/a/../b") =
      some ("https://nitter.net/b ([source](https://twitter.com/a/../b))") ∧
    ("https://nitter.net/b ([source](https://twitter.com/a/../b))" : String) ≠
      ("https://nitter.net/a/../b ([source](https://twitter.com/a/../b))" : String) :=
  ⟨by decide, by decide⟩

/-- C4 (amended): on every rewrite only the hostname component of the
parsed URL changes; the scheme, userinfo, port, path, query and
fragment of the rewritten URL are exactly those of the parsed original,
where parsing itself may normalize the matched text (dot-segment
removal, percent-encoding, default-port elision); the concrete
mobile.twitter.com example holds as stated. -/
theorem c4_rewrite_components (u : String) (url : JSURL) (hp : jsParseUrl u = some url)
    (h : hostEndsWith url ("twitter.com") = true ∨ hostEndsWith url ("medium.com") = true) :
    maybeReplaceUrl u =
      some (String.mk (url.scheme ++ serUserinfo url ++
          (if hostEndsWith url ("twitter.com") then ("nitter.net").data else ("scribe.rip").data) ++
          serPort url.port ++ url.pathname ++ serSearch url.search ++ serFrag url.fragment) ++
        " ([source](" ++ u ++ "))") ∧
    substituteUrls ("https://mobile.twitter.com/wezm/status/123?s=20") =
      some ("https://nitter.net/wezm/status/123?s=20 ([source](https://mobile.twitter.com/wezm/status/123?s=20))") := by
  constructor
  · rw [maybeReplaceUrl_parsed u url hp]
    by_cases h1 : hostEndsWith url ("twitter.com") = true
    · simp [h1, jsToString, jsSetHost, jsHost, serUserinfo, List.append_assoc]
    · have h2 : hostEndsWith url ("medium.com") = true := by
        rcases h with h | h
        · exact absurd h h1
        · exact h
      simp [h1, h2, jsToString, jsSetHost, jsHost, serUserinfo, List.append_assoc]
  · decide

/-- C4 (amended), witness: the mobile fixture rewrites with scheme,
path and query taken from the parsed original. -/
theorem c4_rewrite_components_w :
    maybeReplaceUrl ("https://mobile.twitter.com/wezm/status/123?s=20") =
      some ("https://nitter.net/wezm/status/123?s=20 ([source](https://mobile.twitter.com/wezm/status/123?s=20))") := by
  rw [(c4_rewrite_components ("https://mobile.twitter.com/wezm/status/123?s=20")
      ⟨("https://").data, [], [], ("mobile.twitter.com").data, none,
        ("/wezm/status/123").data, some (("s=20").data), none⟩
      (by decide) (Or.inl (by decide))).1]
  decide

/-- C5: a parsed candidate whose host matches neither rule is returned
byte for byte unchanged, with no reformatting at all. -/
theorem c5_no_match_unchanged (u : String) (url : JSURL) (hp : jsParseUrl u = some url)
    (h1 : hostEndsWith url ("twitter.com") = false)
    (h2 : hostEndsWith url ("medium.com") = false) :
    maybeReplaceUrl u = some u := by
  rw [maybeReplaceUrl_parsed u url hp, h1, h2]
  simp

/-- C5, witness: an example.com URL passes through unchanged. -/
theorem c5_no_match_unchanged_w :
    maybeReplaceUrl ("https://example.com/a?b=c") = some ("https://example.com/a?b=c") :=
  c5_no_match_unchanged ("https://example.com/a?b=c")
    ⟨("https://").data, [], [], ("example.com").data, none, ("/a").data, some (("b=c").data), none⟩
    (by decide) (by decide) (by decide)

/-- C6: the output is a single left-to-right pass over a non-overlapping
span decomposition of the input: reassembling the decomposition gives
back the input exactly, and substituteUrls renders it with every
matched span independently replaced and every other character passed
through verbatim. -/
theorem c6_left_to_right_decomposition (t : String) :
    flattenPieces (piecesAux t.data.length t.data) = t.data ∧
    substituteUrls t = (renderPieces (piecesAux t.data.length t.data)).map String.mk := by
  refine ⟨flattenPieces_piecesAux _ _ (Nat.le_refl _), ?_⟩
  unfold substituteUrls
  rw [scanAux_eq_render]

/-- C6, witness: the decomposition theorem applied to a mixed text. -/
theorem c6_left_to_right_decomposition_w :
    flattenPieces (piecesAux (("x https://twitter.com/a y").data.length)
        (("x https://twitter.com/a y").data)) = ("x https://twitter.com/a y").data ∧
    substituteUrls ("x https://twitter.com/a y") =
      (renderPieces (piecesAux (("x https://twitter.com/a y").data.length)
        (("x https://twitter.com/a y").data))).map String.mk :=
  c6_left_to_right_decomposition ("x https://twitter.com/a y")

/-- C7: a text in which the scanner matches nowhere is returned
unchanged. -/
theorem c7_no_url_identity (t : String) (h : hasUrlCandidate t.data = false) :
    substituteUrls t = some t := by
  unfold substituteUrls
  rw [scanAux_of_noCandidate t.data.length t.data (Nat.le_refl _) h]
  rfl

/-- C7, witness: a plain sentence is returned unchanged. -/
theorem c7_no_url_identity_w :
    hasUrlCandidate (("just plain words").data) = false ∧
      substituteUrls ("just plain words") = some ("just plain words") :=
  ⟨by decide, c7_no_url_identity ("just plain words") (by decide)⟩

/-- C8: a scheme-prefixed host without an internal dot is never a
scanner candidate and passes through unchanged, and a bare word without
a scheme prefix such as twitter.com is likewise untouched. -/
theorem c8_scanner_requires_scheme_and_dot :
    substituteUrls ("https://twitter") = some ("https://twitter") ∧
    hasUrlCandidate (("https://twitter").data) = false ∧
    substituteUrls ("twitter.com") = some ("twitter.com") ∧
    hasUrlCandidate (("twitter.com").data) = false :=
  ⟨by decide, by decide, by decide, by decide⟩

/-- C9: a rewritable URL with no path, query or fragment is matched and
its rewrite is serialized with a trailing slash the original lacked, so
a rewritten URL is not always scheme plus new host plus original path
verbatim. -/
theorem c9_no_path_trailing_slash :
    substituteUrls ("https://twitter.com") =
      some ("https://nitter.net/ ([source](https://twitter.com))") ∧
    ("https://nitter.net/" : String) ≠ ("https://" : String) ++ ("nitter.net" : String) :=
  ⟨by decide, by decide⟩

/-- C10: scheme detection is case-sensitive: every scanner match starts
with the literal lowercase scheme, and an upper-case variant such as
HTTPS is never matched, so the text passes through unchanged. -/
theorem c10_scheme_lowercase_only :
    (∀ l m r : List Char, tryMatchAt l = some (m, r) →
      ∃ rest : List Char, l = ("http://").data ++ rest ∨ l = ("https://").data ++ rest) ∧
    substituteUrls ("HTTPS://twitter.com/x") = some ("HTTPS://twitter.com/x") := by
  constructor
  · intro l m r h
    unfold tryMatchAt at h
    split at h
    · cases h
    case _ sch rest hs =>
      obtain ⟨hl, hsch⟩ := splitScheme_eq l sch rest hs
      subst hl
      rcases hsch with rfl | rfl
      · exact ⟨rest, Or.inr rfl⟩
      · exact ⟨rest, Or.inl rfl⟩
  · decide

/-- C10, witness: the scanner property applied to a concrete match. -/
theorem c10_scheme_lowercase_only_w :
    ∃ rest : List Char, ("http://a.b/c").data = ("http://").data ++ rest ∨
      ("http://a.b/c").data = ("https://").data ++ rest :=
  c10_scheme_lowercase_only.1 (("http://a.b/c").data) (("http://a.b/c").data) []
    (by decide)


/-- Validation against the medium subdomain fixture of the test suite. -/
example :
    substituteUrls ("https://jxxcarlson.medium.com/lambda-calculus-an-elm-cli-fd537071db2b") =
      some ("https://scribe.rip/lambda-calculus-an-elm-cli-fd537071db2b ([source](https://jxxcarlson.medium.com/lambda-calculus-an-elm-cli-fd537071db2b))") := by
  decide

end WizardsBot
